import Mathlib

/-!
Verification of the Balloon Analogue Risk Task (BART) multi-risk program
(`risk.py` and `Util.py`).

Shallow embedding conventions:
* Python's global random number generator is made explicit: a call
  `random.randint(0, n - 1)` is modelled as reading the next value of an
  oracle stream `stream : Nat → Nat` reduced mod `n` (so that it lies in
  the contract range of `randint`), and the single call
  `random.randint(10 - X + 1, 10)` in `Play.getEvent` is modelled by an
  oracle draw `d : Int` constrained to `randint`'s contract range
  `10 - X + 1 ≤ d ≤ 10` (the set `popDraws X` below).
* Python `while` loops whose termination is only probabilistic
  (the empty-slot search in `populateRisks`) take an explicit `fuel`
  argument and return `Option`; Python exceptions (`IndexError` on an
  out-of-range list subscript) are modelled as `none`.
* The pygame state machine (`Control` plus the `States` subclasses) is
  modelled as a step function on a `Session` record that carries the data
  the Python objects thread through `enter`/`exit` payloads.  One input
  event is dispatched per tick, and the transition a state requests by
  setting `done` is performed immediately (the code performs it at the
  next frame; runs in which several decisive keypresses arrive inside a
  single frame's event batch are not modelled).  The `Setup` state sets
  `done` unconditionally in its first `update`, so it is inlined into the
  `start → play` step (its `enter` actions — opening the socket and the
  CSV file, zeroing `overall_total` — happen there).
* File and socket handles are modelled by open-flags plus close-counters;
  `csv_writer.writerow` appends a `CsvRow` to `Session.log`, and
  `socket.sendall` of a trigger appends the trigger code to
  `Session.triggers`.
-/

/-- The three risk tiers (`"high"`, `"medium"`, `"low"` in the Python code). -/
inductive Risk where
  | high
  | medium
  | low
deriving DecidableEq, Repr

/-- One CSV record as written by `Play.exit` via `csv.DictWriter.writerow`. -/
structure CsvRow where
  num_keypresses : Nat
  round_money_won : Nat
  total_money_won : Nat
  popped : Bool
  risk : Risk
deriving DecidableEq, Repr

/-- The three comma-separated integer lines of `probabilities_risk.txt`
(one line per tier, read in the order high, medium, low by `extractProb`). -/
structure ProbFile where
  highLine : List Int
  medLine : List Int
  lowLine : List Int
deriving DecidableEq

/-- Model of `Util.extractProb(multi=True)`: reads one line per tier, converts it to a
list of integers and appends `1` ("Ensures balloon will pop at the end"). -/
def extractProb (f : ProbFile) : Risk → List Int
  | .high => f.highLine ++ [1]
  | .medium => f.medLine ++ [1]
  | .low => f.lowLine ++ [1]

/-- The CSV header written by `Util.setupCSV`: the `fieldnames` list of the
`csv.DictWriter`, which also fixes the order of the values in every row. -/
def setupCSVFieldnames (multi : Bool) : List String :=
  if multi then
    ["num_keypresses", "round_money_won", "total_money_won", "popped", "risk"]
  else
    ["num_keypresses", "round_money_won", "total_money_won", "popped"]

/-- The contract range of the call `random.randint(10 - X + 1, 10)` on line
`self.popped = random.randint(10 - self.probs[self.risk][self.balloon_size] + 1, 10) == 10`
of `Play.getEvent`: the set of draws the generator can produce. -/
def popDraws (X : Int) : Finset Int := Finset.Icc (10 - X + 1) 10

/-- The pop decision of `Play.getEvent` (line 199 of `risk.py`), as a function
of the table, tier, 0-based pump index and the oracle draw `d` of
`random.randint`: the balloon pops iff the draw equals `10`.  A lookup
`self.probs[self.risk][self.balloon_size]` outside the table is a Python
`IndexError`, modelled as `none`. -/
def shouldPop (probs : Risk → List Int) (r : Risk) (pumpIndex : Nat) (d : Int) :
    Option Bool :=
  match (probs r).get? pumpIndex with
  | none => none
  | some _X => some (decide (d = 10))

/-- Number of occurrences of the entry `x` in a slot list
(used to state the balance invariant of `populateRisks`). -/
def countTier (x : Option Risk) : List (Option Risk) → Nat
  | [] => 0
  | y :: ys => (if y = x then 1 else 0) + countTier x ys

/-- The per-tier quota of `Util.populateRisks`, the Python expression
`upper_bound = i == 1 and num_rounds // 3 + num_rounds % 3 or num_rounds // 3`
with Python's `and`/`or` value semantics (`A and B or C` is `B` when both `A`
and `B` are truthy, else `C`). -/
def upperBound (i num_rounds : Nat) : Nat :=
  if i = 1 ∧ num_rounds / 3 + num_rounds % 3 ≠ 0 then
    num_rounds / 3 + num_rounds % 3
  else
    num_rounds / 3

/-- The inner `while not valid` loop of `Util.populateRisks`: repeatedly draw
`index = random.randint(0, num_rounds - 1)` (oracle value reduced mod the list
length) until `output[index] == None`.  Returns the found index and the next
oracle position, or `none` when `fuel` runs out. -/
def findEmptySlot (output : List (Option Risk)) (stream : Nat → Nat)
    (pos : Nat) : Nat → Option (Nat × Nat)
  | 0 => none
  | fuel + 1 =>
    let index := stream pos % output.length
    if output.get? index = some none then some (index, pos + 1)
    else findEmptySlot output stream (pos + 1) fuel

/-- The inner `for j in range(0, upper_bound)` loop of `Util.populateRisks`:
seeds `count` occurrences of `risk` into empty slots of `output`. -/
def seedRisk (risk : Risk) (count : Nat) (output : List (Option Risk))
    (stream : Nat → Nat) (pos fuel : Nat) : Option (List (Option Risk) × Nat) :=
  match count with
  | 0 => some (output, pos)
  | c + 1 =>
    match findEmptySlot output stream pos fuel with
    | none => none
    | some (idx, pos') => seedRisk risk c (output.set idx (some risk)) stream pos' fuel

/-- Model of `Util.populateRisks(num_rounds)`: distributes the risk levels over an
initially empty list of length `num_rounds`, iterating `i = 0, 1, 2` over
`risks = ["high", "medium", "low"]` with quota `upperBound i num_rounds`. -/
def populateRisks (num_rounds : Nat) (stream : Nat → Nat) (fuel : Nat) :
    Option (List (Option Risk)) :=
  let output : List (Option Risk) := List.replicate num_rounds none
  match seedRisk .high (upperBound 0 num_rounds) output stream 0 fuel with
  | none => none
  | some (o1, p1) =>
    match seedRisk .medium (upperBound 1 num_rounds) o1 stream p1 fuel with
    | none => none
    | some (o2, p2) =>
      match seedRisk .low (upperBound 2 num_rounds) o2 stream p2 fuel with
      | none => none
      | some (o3, _) => some o3

/-- The names of the task states in `risk.py`'s `state_dict` (the `Setup`
state transitions unconditionally on its first frame and is inlined into the
`start → play` step, see the header comment). -/
inductive SName where
  | start
  | play
  | popped
  | cashed
  | exitS
deriving DecidableEq, Repr

/-- The input events the program reacts to: the window-close event
`pygame.QUIT` handled by `Control.eventLoop`, and the keydown events
`K_RETURN`, `K_RIGHT` (with the oracle draw of the `random.randint` call that
a pump triggers), `K_LEFT` and `K_q` handled by the states. -/
inductive Ev where
  | winQuit
  | ret
  | right (draw : Int)
  | left
  | keyQ
deriving DecidableEq, Repr

/-- The session data threaded through the states' `enter`/`exit` payloads,
together with the observable effects (CSV rows written, trigger codes sent,
resource open-flags and close-counters) and the `Control.done` flag. -/
structure Session where
  name : SName
  num_rounds : Nat
  num_rounds_left : Nat
  overall_total : Nat
  round_risks : List Risk
  probs : Risk → List Int
  round_total : Nat
  balloon_size : Nat
  popped : Bool
  cashed : Bool
  risk : Risk
  log : List CsvRow
  playEntries : Nat
  socketOpen : Bool
  fileOpen : Bool
  socketCloses : Nat
  fileCloses : Nat
  triggers : List Nat
  done : Bool

/-- The row written by `Play.exit`:
`{'num_keypresses': balloon_size, 'round_money_won': round_total * (not popped),
'total_money_won': overall_total, 'popped': popped, 'risk': risk}`
(a Python `bool` multiplies as `0`/`1`). -/
def exitRow (s : Session) : CsvRow :=
  { num_keypresses := s.balloon_size
  , round_money_won := s.round_total * (if s.popped then 0 else 1)
  , total_money_won := s.overall_total
  , popped := s.popped
  , risk := s.risk }

/-- Model of `Play.enter`: resets the round-local attributes and resolves the round's
tier as `round_risks[len(round_risks) - num_rounds_left]` (an out-of-range
subscript would be an `IndexError`, modelled as `none`; the `playEntries`
field is a ghost counter of Play entries). -/
def playEnter (s : Session) : Option Session :=
  match s.round_risks.get? (s.round_risks.length - s.num_rounds_left) with
  | none => none
  | some r =>
    some { s with name := .play, round_total := 0, popped := false,
                  cashed := false, balloon_size := 0, risk := r,
                  playEntries := s.playEntries + 1 }

/-- Model of `Play.exit` followed by `Popped.enter`/`Cashed.enter`: writes the CSV row,
decrements the remaining-round counter in the payload, and sends the trigger
code (`9` when popped, `7` when cashed). -/
def playExitTo (s : Session) (target : SName) : Session :=
  { s with name := target,
           log := s.log ++ [exitRow s],
           num_rounds_left := s.num_rounds_left - 1,
           triggers := s.triggers ++ [if target = .popped then 9 else 7] }

/-- One tick of `Control.mainGameLoop`: dispatch one event to the current
state and perform the transition the state requests (`none` models both a
Python exception and the loop having already terminated via `Control.done`). -/
def step (s : Session) (e : Ev) : Option Session :=
  if s.done then none
  else
    match s.name, e with
    | _, .winQuit => some { s with done := true }
    | .start, .keyQ => some { s with done := true }
    | .start, .ret =>
      -- Setup.enter (socket, CSV file, probability table, overall_total = 0)
      -- runs and Setup auto-transitions into Play.
      playEnter { s with socketOpen := true, fileOpen := true, overall_total := 0 }
    | .play, .right draw =>
      match shouldPop s.probs s.risk s.balloon_size draw with
      | none => none
      | some pop =>
        if pop then
          some (playExitTo { s with popped := true } .popped)
        else
          some { s with popped := false, round_total := s.round_total + 1,
                        balloon_size := s.balloon_size + 1 }
    | .play, .left =>
      some (playExitTo
        { s with overall_total := s.overall_total + s.round_total,
                 cashed := true } .cashed)
    | .popped, .ret | .cashed, .ret =>
      if s.num_rounds_left = 0 then
        -- EndRound.enter set next = "exit"; Exit.enter closes the
        -- socket and the CSV file.
        some { s with name := .exitS, socketOpen := false, fileOpen := false,
                      socketCloses := s.socketCloses + 1,
                      fileCloses := s.fileCloses + 1 }
      else
        playEnter s
    | .exitS, .ret => some { s with done := true }
    | _, _ => some s

/-- Which events the environment can actually deliver in a state: a pump
event's oracle draw must lie in the contract range of
`random.randint(10 - X + 1, 10)` (when the table lookup is in range). -/
def validEv (s : Session) (e : Ev) : Bool :=
  match e, s.name with
  | .right d, .play =>
    match (s.probs s.risk).get? s.balloon_size with
    | some X => decide (10 - X + 1 ≤ d ∧ d ≤ 10)
    | none => true
  | _, _ => true

/-- The session at program start (`main` collects the configuration and the
state machine starts in `start`; the schedule and table the `Setup` state
will install are oracle parameters, cf. `populateRisks` and `extractProb`). -/
def initSession (num_rounds : Nat) (sched : List Risk) (probs : Risk → List Int) :
    Session :=
  { name := .start
  , num_rounds := num_rounds
  , num_rounds_left := num_rounds
  , overall_total := 0
  , round_risks := sched
  , probs := probs
  , round_total := 0
  , balloon_size := 0
  , popped := false
  , cashed := false
  , risk := .high  -- placeholder; `Play.enter` sets the real tier
  , log := []
  , playEntries := 0
  , socketOpen := false
  , fileOpen := false
  , socketCloses := 0
  , fileCloses := 0
  , triggers := []
  , done := false }

/-- Sessions reachable from `init` by dispatching deliverable events. -/
inductive Reachable (init : Session) : Session → Prop where
  | refl : Reachable init init
  | tail {s s' : Session} {e : Ev} :
      Reachable init s → validEv s e = true → step s e = some s' →
      Reachable init s'

/-- Sum of the `round_money_won` fields of a list of CSV rows. -/
def sumMoney (l : List CsvRow) : Nat :=
  (l.map (fun row => row.round_money_won)).sum

/-- Predicate `goodLog acc l`: every row of `l` carries in `total_money_won` the running
sum of the `round_money_won` fields, starting from `acc`. -/
def goodLog : Nat → List CsvRow → Prop
  | _, [] => True
  | acc, row :: rest =>
      row.total_money_won = acc + row.round_money_won ∧
      goodLog (acc + row.round_money_won) rest

/-- The reachability invariant of the session machine: the configuration
fields are constant, the cumulative total equals the sum of the logged
round payouts, every logged row carries the running total, and each state
carries its phase-specific bookkeeping (round counters, log length, the
in-bounds bound on `balloon_size`, and the resource open/close state). -/
def SessionInv (N : Nat) (sched : List Risk) (f : ProbFile) (s : Session) : Prop :=
  s.num_rounds = N ∧
  s.round_risks = sched ∧
  s.probs = extractProb f ∧
  s.num_rounds_left ≤ N ∧
  s.overall_total = sumMoney s.log ∧
  goodLog 0 s.log ∧
  (s.name = .start →
    s.playEntries = 0 ∧ s.num_rounds_left = N ∧ s.log = [] ∧
    s.socketOpen = false ∧ s.fileOpen = false ∧
    s.socketCloses = 0 ∧ s.fileCloses = 0) ∧
  (s.name = .play →
    s.playEntries + s.num_rounds_left = N + 1 ∧ 1 ≤ s.num_rounds_left ∧
    s.log.length + 1 = s.playEntries ∧
    s.balloon_size + 1 ≤ (extractProb f s.risk).length ∧
    s.popped = false ∧
    s.socketOpen = true ∧ s.fileOpen = true ∧
    s.socketCloses = 0 ∧ s.fileCloses = 0) ∧
  ((s.name = .popped ∨ s.name = .cashed) →
    s.playEntries + s.num_rounds_left = N ∧ s.log.length = s.playEntries ∧
    s.socketOpen = true ∧ s.fileOpen = true ∧
    s.socketCloses = 0 ∧ s.fileCloses = 0) ∧
  (s.name = .exitS →
    s.playEntries = N ∧ s.num_rounds_left = 0 ∧ s.log.length = N ∧
    s.socketOpen = false ∧ s.fileOpen = false ∧
    s.socketCloses = 1 ∧ s.fileCloses = 1)

/-! ### A concrete one-round session used to instantiate the theorems -/

/-- A probability file whose tier lines are all empty, so that each loaded
tier sequence is just the sentinel `[1]` and the first pump always pops. -/
def f0 : ProbFile := ⟨[], [], []⟩

/-- A one-round session (`num_rounds = 1`, schedule `[high]`). -/
def sess0 : Session := initSession 1 [Risk.high] (extractProb f0)

/-- The session after confirming at Start (Setup runs, Play is entered). -/
def sessPlay : Session :=
  { sess0 with name := .play, socketOpen := true, fileOpen := true,
               overall_total := 0, round_total := 0, popped := false,
               cashed := false, balloon_size := 0, risk := .high,
               playEntries := 1 }

/-- The state after a hypothetical surviving pump from `sessPlay`
(used to instantiate the pump-bookkeeping theorem). -/
def sessPumped : Session :=
  { sessPlay with popped := false,
                  round_total := sessPlay.round_total + 1,
                  balloon_size := sessPlay.balloon_size + 1 }

/-- The CSV row logged when the first pump of `sessPlay` pops. -/
def row0 : CsvRow :=
  { num_keypresses := 0, round_money_won := 0, total_money_won := 0,
    popped := true, risk := .high }

/-- The session after the first pump of `sessPlay` pops (draw = 10). -/
def sessPopped : Session :=
  { sessPlay with name := .popped, popped := true, num_rounds_left := 0,
                  log := [row0], triggers := [9] }

/-- The session after confirming at Popped with no rounds left. -/
def sessExit : Session :=
  { sessPopped with name := .exitS, socketOpen := false, fileOpen := false,
                    socketCloses := 1, fileCloses := 1 }

/-- The CSV row logged when `sessPlay` cashes in immediately. -/
def rowCash : CsvRow :=
  { num_keypresses := 0, round_money_won := 0, total_money_won := 0,
    popped := false, risk := .high }

/-- The session after `sessPlay` cashes in immediately. -/
def sessCashed : Session :=
  { sessPlay with name := .cashed, cashed := true, num_rounds_left := 0,
                  log := [rowCash], triggers := [7] }

/-- The session terminated by a window-close event while in Play. -/
def sQuitPlay : Session := { sessPlay with done := true }

theorem reach_sessPlay : Reachable sess0 sessPlay :=
  .tail (e := .ret) .refl (by decide) (by rfl)

theorem reach_sessPopped : Reachable sess0 sessPopped :=
  .tail (e := .right 10) reach_sessPlay (by decide) (by rfl)

theorem reach_sessExit : Reachable sess0 sessExit :=
  .tail (e := .ret) reach_sessPopped (by decide) (by rfl)

theorem reach_sessCashed : Reachable sess0 sessCashed :=
  .tail (e := .left) reach_sessPlay (by decide) (by rfl)

theorem reach_sQuitPlay : Reachable sess0 sQuitPlay :=
  .tail (e := .winQuit) reach_sessPlay (by decide) (by rfl)

/-! ### Lemmas about `populateRisks` (claim C1) -/

theorem countTier_replicate_none (n : Nat) :
    countTier none (List.replicate n none) = n := by
  induction n with
  | zero => rfl
  | succ n ih => simp [List.replicate, countTier, ih]; omega

theorem countTier_replicate_some (n : Nat) (r : Risk) :
    countTier (some r) (List.replicate n none) = 0 := by
  induction n with
  | zero => rfl
  | succ n ih => simp [List.replicate, countTier, ih]

theorem countTier_set_same (l : List (Option Risk)) (i : Nat) (r : Risk)
    (h : l.get? i = some none) :
    countTier (some r) (l.set i (some r)) = countTier (some r) l + 1 := by
  induction l generalizing i with
  | nil => simp at h
  | cons y ys ih =>
    cases i with
    | zero =>
      simp only [List.get?] at h
      cases h
      simp [List.set, countTier]
      omega
    | succ i =>
      simp only [List.get?] at h
      simp [List.set, countTier, ih i h]
      omega

theorem countTier_set_none (l : List (Option Risk)) (i : Nat) (r : Risk)
    (h : l.get? i = some none) :
    countTier none (l.set i (some r)) + 1 = countTier none l := by
  induction l generalizing i with
  | nil => simp at h
  | cons y ys ih =>
    cases i with
    | zero =>
      simp only [List.get?] at h
      cases h
      simp [List.set, countTier]
      omega
    | succ i =>
      simp only [List.get?] at h
      simp [List.set, countTier]
      have := ih i h
      omega

theorem countTier_set_other (l : List (Option Risk)) (i : Nat) (r : Risk)
    (x : Option Risk) (hx1 : x ≠ some r) (hx2 : x ≠ none)
    (h : l.get? i = some none) :
    countTier x (l.set i (some r)) = countTier x l := by
  induction l generalizing i with
  | nil => simp at h
  | cons y ys ih =>
    cases i with
    | zero =>
      simp only [List.get?] at h
      cases h
      simp [List.set, countTier, Ne.symm hx1, Ne.symm hx2]
    | succ i =>
      simp only [List.get?] at h
      simp [List.set, countTier, ih i h]

theorem findEmptySlot_spec (output : List (Option Risk)) (stream : Nat → Nat)
    (pos fuel idx pos' : Nat)
    (h : findEmptySlot output stream pos fuel = some (idx, pos')) :
    output.get? idx = some none := by
  induction fuel generalizing pos with
  | zero => simp [findEmptySlot] at h
  | succ fuel ih =>
    rw [findEmptySlot] at h
    split at h
    · rename_i hcond
      cases h
      exact hcond
    · exact ih _ h

theorem seedRisk_spec (r : Risk) (c : Nat) :
    ∀ (output : List (Option Risk)) (stream : Nat → Nat) (pos fuel : Nat)
      (out' : List (Option Risk)) (pos' : Nat),
      seedRisk r c output stream pos fuel = some (out', pos') →
      out'.length = output.length ∧
      countTier (some r) out' = countTier (some r) output + c ∧
      countTier none out' + c = countTier none output ∧
      (∀ x, x ≠ some r → x ≠ none → countTier x out' = countTier x output) := by
  induction c with
  | zero =>
    intro output stream pos fuel out' pos' h
    rw [seedRisk] at h
    cases h
    exact ⟨rfl, by omega, by omega, fun _ _ _ => rfl⟩
  | succ c ih =>
    intro output stream pos fuel out' pos' h
    rw [seedRisk] at h
    split at h
    · exact absurd h (by simp)
    · rename_i idx p' hfind
      have hempty := findEmptySlot_spec output stream pos fuel idx p' hfind
      obtain ⟨hlen, hsame, hnone, hother⟩ := ih _ stream p' fuel out' pos' h
      refine ⟨hlen.trans (List.length_set ..), ?_, ?_, ?_⟩
      · rw [hsame, countTier_set_same output idx r hempty]
        omega
      · have := countTier_set_none output idx r hempty
        omega
      · intro x hx1 hx2
        rw [hother x hx1 hx2, countTier_set_other output idx r x hx1 hx2 hempty]

theorem not_mem_of_countTier_zero (x : Option Risk) (l : List (Option Risk))
    (h : countTier x l = 0) : x ∉ l := by
  induction l with
  | nil => simp
  | cons y ys ih =>
    simp only [countTier] at h
    by_cases hy : y = x
    · simp [hy] at h
    · simp only [List.mem_cons]
      rintro (rfl | hmem)
      · exact hy rfl
      · exact ih (by omega) hmem

/-- C1: for every round count `N ≥ 1`, whenever `populateRisks` returns a
schedule (for any random oracle and any fuel), the schedule has length `N`,
every index is assigned a tier (no slot is left empty), the counts of `high`
and `low` each equal `N / 3`, and the count of `medium` equals
`N / 3 + N % 3`. -/
theorem claim_C1 (N : Nat) (stream : Nat → Nat) (fuel : Nat)
    (out : List (Option Risk)) (hN : 1 ≤ N)
    (h : populateRisks N stream fuel = some out) :
    out.length = N ∧ none ∉ out ∧
    countTier (some .high) out = N / 3 ∧
    countTier (some .low) out = N / 3 ∧
    countTier (some .medium) out = N / 3 + N % 3 := by
  have hq0 : upperBound 0 N = N / 3 := by simp [upperBound]
  have hq1 : upperBound 1 N = N / 3 + N % 3 := by
    unfold upperBound
    rw [if_pos]
    exact ⟨rfl, by omega⟩
  have hq2 : upperBound 2 N = N / 3 := by simp [upperBound]
  unfold populateRisks at h
  dsimp only at h
  split at h
  · simp at h
  · rename_i o1 p1 h1
    split at h
    · simp at h
    · rename_i o2 p2 h2
      split at h
      · simp at h
      · rename_i o3 p3 h3
        injection h with h4
        subst h4
        obtain ⟨l1, c1same, c1none, c1other⟩ :=
          seedRisk_spec Risk.high (upperBound 0 N) _ stream 0 fuel o1 p1 h1
        obtain ⟨l2, c2same, c2none, c2other⟩ :=
          seedRisk_spec Risk.medium (upperBound 1 N) o1 stream p1 fuel o2 p2 h2
        obtain ⟨l3, c3same, c3none, c3other⟩ :=
          seedRisk_spec Risk.low (upperBound 2 N) o2 stream p2 fuel o3 p3 h3
        have hlen : o3.length = N := by
          rw [l3, l2, l1, List.length_replicate]
        have hhigh : countTier (some Risk.high) o3 = N / 3 := by
          rw [c3other (some Risk.high) (by simp) (by simp),
              c2other (some Risk.high) (by simp) (by simp),
              c1same, countTier_replicate_some, hq0]
          omega
        have hmed : countTier (some Risk.medium) o3 = N / 3 + N % 3 := by
          rw [c3other (some Risk.medium) (by simp) (by simp),
              c2same, c1other (some Risk.medium) (by simp) (by simp),
              countTier_replicate_some, hq1]
          omega
        have hlow : countTier (some Risk.low) o3 = N / 3 := by
          rw [c3same,
              c2other (some Risk.low) (by simp) (by simp),
              c1other (some Risk.low) (by simp) (by simp),
              countTier_replicate_some, hq2]
          omega
        have hnone : countTier none o3 = 0 := by
          rw [countTier_replicate_none] at c1none
          rw [hq0] at c1none
          rw [hq1] at c2none
          rw [hq2] at c3none
          omega
        exact ⟨hlen, not_mem_of_countTier_zero none o3 hnone, hhigh, hlow, hmed⟩

/-- Witness for C1: `populateRisks 4` with the identity oracle and fuel 5
returns `[high, medium, medium, low]`, which satisfies the balance
invariant for `N = 4`. -/
theorem claim_C1_witness :
    ([some Risk.high, some Risk.medium, some Risk.medium, some Risk.low] :
        List (Option Risk)).length = 4 ∧
    (none : Option Risk) ∉
      [some Risk.high, some Risk.medium, some Risk.medium, some Risk.low] ∧
    countTier (some .high)
      [some Risk.high, some Risk.medium, some Risk.medium, some Risk.low] = 4 / 3 ∧
    countTier (some .low)
      [some Risk.high, some Risk.medium, some Risk.medium, some Risk.low] = 4 / 3 ∧
    countTier (some .medium)
      [some Risk.high, some Risk.medium, some Risk.medium, some Risk.low] =
        4 / 3 + 4 % 3 :=
  claim_C1 4 (fun n => n) 5
    [some Risk.high, some Risk.medium, some Risk.medium, some Risk.low]
    (by decide) (by decide)

/-! ### The pop model (claims C2, C3, C4) -/

/-- C2: for every table value `X ≥ 1` read for the current tier and pump
count, the pop decision is a "1 in X" Bernoulli trial: the random draw ranges
over exactly `X` equally likely outcomes (`popDraws X`), the draw `10` is a
popping outcome, any popping draw equals `10` (so exactly one outcome pops,
probability `1/X`), and for `X = 1` every possible draw pops. -/
theorem claim_C2 (probs : Risk → List Int) (r : Risk) (i : Nat) (X d : Int)
    (hX : 1 ≤ X) (h : (probs r).get? i = some X) (hd : d ∈ popDraws X) :
    (popDraws X).card = X.toNat ∧
    ((10 : Int) ∈ popDraws X ∧ shouldPop probs r i 10 = some true) ∧
    (shouldPop probs r i d = some true → d = 10) ∧
    (X = 1 → shouldPop probs r i d = some true) := by
  have hpop : ∀ e : Int, shouldPop probs r i e = some (decide (e = 10)) := by
    intro e
    unfold shouldPop
    rw [h]
  refine ⟨?_, ⟨?_, ?_⟩, ?_, ?_⟩
  · rw [popDraws, Int.card_Icc]
    congr 1
    omega
  · rw [popDraws, Finset.mem_Icc]
    omega
  · rw [hpop]
    simp
  · rw [hpop]
    simp
  · intro hX1
    subst hX1
    rw [popDraws, Finset.mem_Icc] at hd
    have : d = 10 := by omega
    subst this
    rw [hpop]
    simp

/-- Witness for C2 at `X = 3` (table `[3]` plus sentinel, tier high,
pump index 0, draw 8). -/
theorem claim_C2_witness :
    (popDraws 3).card = (3 : Int).toNat ∧
    ((10 : Int) ∈ popDraws 3 ∧
      shouldPop (extractProb ⟨[3], [3], [3]⟩) .high 0 10 = some true) ∧
    (shouldPop (extractProb ⟨[3], [3], [3]⟩) .high 0 8 = some true →
      (8 : Int) = 10) ∧
    ((3 : Int) = 1 → shouldPop (extractProb ⟨[3], [3], [3]⟩) .high 0 8 = some true) :=
  claim_C2 (extractProb ⟨[3], [3], [3]⟩) .high 0 3 8 (by decide) (by rfl) (by decide)

/-- C3 counterexample: with the loaded table `{high: [10]}` (value `10` at
pump index 0), the draw `1` is a possible outcome of the random call, yet
`shouldPop` returns `false` — so the decision does not pop with probability
`X/10` (which would be certain for `X = 10`); it pops with probability `1/X`. -/
theorem claim_C3_counterexample :
    (1 : Int) ∈ popDraws 10 ∧
    shouldPop (extractProb ⟨[10], [], []⟩) .high 0 1 = some false :=
  ⟨by decide, rfl⟩

/-- C3 (amended): for every table value `X` between 1 and 10, the pop
decision pops with probability `1/X`, not `X/10`: the draw ranges over the
`X` equally likely outcomes `{11 - X, …, 10}` and the decision pops iff the
draw equals `10`; the deterministic case is `X = 1` (not `X = 10`), where
every possible draw pops. -/
theorem claim_C3 (probs : Risk → List Int) (r : Risk) (i : Nat) (X d : Int)
    (h : (probs r).get? i = some X) (hX1 : 1 ≤ X) (hX10 : X ≤ 10)
    (hd : d ∈ popDraws X) :
    (shouldPop probs r i d = some true ↔ d = 10) ∧
    (popDraws X).card = X.toNat ∧
    (X = 1 → shouldPop probs r i d = some true) := by
  have hpop : ∀ e : Int, shouldPop probs r i e = some (decide (e = 10)) := by
    intro e
    unfold shouldPop
    rw [h]
  refine ⟨?_, ?_, ?_⟩
  · rw [hpop]
    simp
  · rw [popDraws, Int.card_Icc]
    congr 1
    omega
  · intro hX1'
    subst hX1'
    rw [popDraws, Finset.mem_Icc] at hd
    have : d = 10 := by omega
    subst this
    rw [hpop]
    simp

/-- Witness for the amended C3 at `X = 10` (table `{high: [10]}`, draw 1). -/
theorem claim_C3_witness :
    (shouldPop (extractProb ⟨[10], [], []⟩) .high 0 1 = some true ↔ (1 : Int) = 10) ∧
    (popDraws 10).card = (10 : Int).toNat ∧
    ((10 : Int) = 1 → shouldPop (extractProb ⟨[10], [], []⟩) .high 0 1 = some true) :=
  claim_C3 (extractProb ⟨[10], [], []⟩) .high 0 10 1 (by rfl) (by decide) (by decide)
    (by decide)

/-- C4 counterexample: for the loaded table of the file with empty tier
lines, `table[high] = [1]` has length 1, so pump index `1` satisfies
`pumpIndex ≥ length − 1`, yet the pop decision is an `IndexError` (`none`),
not `true`: the claim's "always pops for every pumpIndex ≥ length − 1" fails
beyond the last index. -/
theorem claim_C4_counterexample :
    1 ≥ (extractProb f0 .high).length - 1 ∧
    shouldPop (extractProb f0) .high 1 10 = none :=
  ⟨by decide, rfl⟩

/-- C4 (amended): the loader appends a sentinel `1` at the end of every
tier's sequence; at the last index (`pumpIndex = length − 1`) the table value
is `1` and the pop decision returns `true` for every possible draw; but for
`pumpIndex ≥ length` the lookup fails (Python `IndexError`, modelled `none`)
rather than returning `true`. -/
theorem claim_C4 (f : ProbFile) (r : Risk) (i j : Nat) (d1 d2 : Int)
    (hi : i + 1 = (extractProb f r).length)
    (hd1 : d1 ∈ popDraws 1)
    (hj : (extractProb f r).length ≤ j) :
    (extractProb f r).getLast? = some 1 ∧
    (extractProb f r).get? i = some 1 ∧
    shouldPop (extractProb f) r i d1 = some true ∧
    shouldPop (extractProb f) r j d2 = none := by
  obtain ⟨line, hline⟩ : ∃ line, extractProb f r = line ++ [1] := by
    cases r
    · exact ⟨f.highLine, rfl⟩
    · exact ⟨f.medLine, rfl⟩
    · exact ⟨f.lowLine, rfl⟩
  have hget : (extractProb f r).get? i = some 1 := by
    rw [hline] at hi ⊢
    rw [List.length_append] at hi
    have : i = line.length := by simpa using hi
    subst this
    exact List.get?_concat_length line 1
  have hd1' : d1 = 10 := by
    rw [popDraws, Finset.mem_Icc] at hd1
    omega
  refine ⟨?_, hget, ?_, ?_⟩
  · rw [hline]
    exact List.getLast?_concat line
  · unfold shouldPop
    rw [hget, hd1']
    simp
  · unfold shouldPop
    rw [List.get?_eq_none.mpr hj]

/-! ### Supporting lemmas for the session invariant -/

theorem sumMoney_cons (row : CsvRow) (l : List CsvRow) :
    sumMoney (row :: l) = row.round_money_won + sumMoney l := by
  simp [sumMoney]

theorem sumMoney_append_single (l : List CsvRow) (row : CsvRow) :
    sumMoney (l ++ [row]) = sumMoney l + row.round_money_won := by
  simp [sumMoney]

theorem goodLog_append (a : Nat) (l : List CsvRow) (row : CsvRow)
    (h : goodLog a l)
    (hrow : row.total_money_won = a + sumMoney l + row.round_money_won) :
    goodLog a (l ++ [row]) := by
  induction l generalizing a with
  | nil =>
    refine ⟨?_, trivial⟩
    simpa [sumMoney] using hrow
  | cons r rest ih =>
    obtain ⟨hr1, hr2⟩ := h
    refine ⟨hr1, ih (a + r.round_money_won) hr2 ?_⟩
    rw [sumMoney_cons] at hrow
    omega

theorem extractProb_line (f : ProbFile) (r : Risk) :
    ∃ line, extractProb f r = line ++ [1] := by
  cases r
  · exact ⟨f.highLine, rfl⟩
  · exact ⟨f.medLine, rfl⟩
  · exact ⟨f.lowLine, rfl⟩

theorem extractProb_length_pos (f : ProbFile) (r : Risk) :
    1 ≤ (extractProb f r).length := by
  obtain ⟨line, h⟩ := extractProb_line f r
  rw [h, List.length_append]
  simp

theorem extractProb_last (f : ProbFile) (r : Risk) (i : Nat)
    (hi : i + 1 = (extractProb f r).length) :
    (extractProb f r).get? i = some 1 := by
  obtain ⟨line, h⟩ := extractProb_line f r
  rw [h] at hi ⊢
  rw [List.length_append] at hi
  have : i = line.length := by simpa using hi
  subst this
  exact List.get?_concat_length line 1

/-- If the pump survives (draw within the `randint` range but not `10`) the
current index cannot be the last one, so the incremented `balloon_size`
remains in bounds (the sentinel at the last index forces `X = 1`, whose only
possible draw is `10`). -/
theorem pump_bound (f : ProbFile) (r : Risk) (bs : Nat) (X d : Int)
    (hbs : bs + 1 ≤ (extractProb f r).length)
    (hX : (extractProb f r).get? bs = some X)
    (hrange : 10 - X + 1 ≤ d ∧ d ≤ 10) (hd : ¬d = 10) :
    bs + 2 ≤ (extractProb f r).length := by
  by_contra hcon
  have hlast : bs + 1 = (extractProb f r).length := by omega
  have h1 := extractProb_last f r bs hlast
  rw [hX] at h1
  injection h1 with hX1
  subst hX1
  omega

theorem inv_step (N : Nat) (sched : List Risk) (f : ProbFile) (hN : 1 ≤ N)
    (s s' : Session) (e : Ev) (hinv : SessionInv N sched f s)
    (hv : validEv s e = true) (hstep : step s e = some s') :
    SessionInv N sched f s' := by
  obtain ⟨name, nr, nleft, total, risks, probs, rt, bs, pp, cs, rk, log, pe,
          so, fo, sc, fc, tg, dn⟩ := s
  obtain ⟨h1, h2, h3, h4, h5, h6, hstart, hplay, hend, hexit⟩ := hinv
  dsimp only at *
  cases dn with
  | true => simp [step] at hstep
  | false =>
    cases e with
    | winQuit =>
      simp only [step] at hstep
      injection hstep with hstep
      subst hstep
      exact ⟨h1, h2, h3, h4, h5, h6, hstart, hplay, hend, hexit⟩
    | ret =>
      cases name with
      | start =>
        obtain ⟨hpe, hnl, hlog, hso, hfo, hsc, hfc⟩ := hstart rfl
        simp only [step] at hstep
        unfold playEnter at hstep
        dsimp only at hstep
        rcases hget : risks.get? (risks.length - nleft) with _ | r
        · rw [hget] at hstep
          simp at hstep
        · rw [hget] at hstep
          injection hstep with hstep
          subst hstep
          dsimp only [SessionInv]
          refine ⟨h1, h2, h3, h4, ?_, h6, (by simp), ?_,
                  (by simp),
                  (by simp)⟩
          · rw [hlog]
            rfl
          · intro _
            refine ⟨by omega, by omega, by simp [hlog, hpe], ?_, rfl, rfl, rfl,
                    hsc, hfc⟩
            simpa using extractProb_length_pos f r
      | play =>
        simp only [step] at hstep
        injection hstep with hstep
        subst hstep
        exact ⟨h1, h2, h3, h4, h5, h6, hstart, hplay, hend, hexit⟩
      | popped =>
        obtain ⟨hpn, hll, hso, hfo, hsc, hfc⟩ := hend (Or.inl rfl)
        simp only [step] at hstep
        by_cases h0 : nleft = 0
        · rw [if_pos h0] at hstep
          injection hstep with hstep
          subst hstep
          dsimp only [SessionInv]
          refine ⟨h1, h2, h3, h4, h5, h6, (by simp),
                  (by simp),
                  (by simp),
                  ?_⟩
          intro _
          exact ⟨by omega, h0, by omega, rfl, rfl, by omega, by omega⟩
        · rw [if_neg h0] at hstep
          unfold playEnter at hstep
          dsimp only at hstep
          rcases hget : risks.get? (risks.length - nleft) with _ | r
          · rw [hget] at hstep
            simp at hstep
          · rw [hget] at hstep
            injection hstep with hstep
            subst hstep
            dsimp only [SessionInv]
            refine ⟨h1, h2, h3, h4, h5, h6, (by simp), ?_,
                    (by simp),
                    (by simp)⟩
            intro _
            refine ⟨by omega, by omega, by omega, ?_, rfl, hso, hfo, hsc, hfc⟩
            simpa using extractProb_length_pos f r
      | cashed =>
        obtain ⟨hpn, hll, hso, hfo, hsc, hfc⟩ := hend (Or.inr rfl)
        simp only [step] at hstep
        by_cases h0 : nleft = 0
        · rw [if_pos h0] at hstep
          injection hstep with hstep
          subst hstep
          dsimp only [SessionInv]
          refine ⟨h1, h2, h3, h4, h5, h6, (by simp),
                  (by simp),
                  (by simp),
                  ?_⟩
          intro _
          exact ⟨by omega, h0, by omega, rfl, rfl, by omega, by omega⟩
        · rw [if_neg h0] at hstep
          unfold playEnter at hstep
          dsimp only at hstep
          rcases hget : risks.get? (risks.length - nleft) with _ | r
          · rw [hget] at hstep
            simp at hstep
          · rw [hget] at hstep
            injection hstep with hstep
            subst hstep
            dsimp only [SessionInv]
            refine ⟨h1, h2, h3, h4, h5, h6, (by simp), ?_,
                    (by simp),
                    (by simp)⟩
            intro _
            refine ⟨by omega, by omega, by omega, ?_, rfl, hso, hfo, hsc, hfc⟩
            simpa using extractProb_length_pos f r
      | exitS =>
        simp only [step] at hstep
        injection hstep with hstep
        subst hstep
        exact ⟨h1, h2, h3, h4, h5, h6, hstart, hplay, hend, hexit⟩
    | right d =>
      cases name with
      | start =>
        simp only [step] at hstep
        injection hstep with hstep
        subst hstep
        exact ⟨h1, h2, h3, h4, h5, h6, hstart, hplay, hend, hexit⟩
      | play =>
        obtain ⟨hpn, hnl1, hll, hbs, hpp, hso, hfo, hsc, hfc⟩ := hplay rfl
        subst hpp
        have hlt : bs < (extractProb f rk).length := by omega
        obtain ⟨X, hX⟩ : ∃ X, (extractProb f rk).get? bs = some X :=
          ⟨_, List.get?_eq_get hlt⟩
        simp only [step] at hstep
        rw [h3] at hstep
        unfold shouldPop at hstep
        rw [hX] at hstep
        dsimp only at hstep
        simp only [validEv, h3, hX, decide_eq_true_eq] at hv
        rw [if_neg Bool.false_ne_true] at hstep
        split at hstep
        · rename_i hd10t
          have hd10 : d = 10 := of_decide_eq_true hd10t
          injection hstep with hstep
          subst hstep
          dsimp only [SessionInv, playExitTo, exitRow]
          refine ⟨h1, h2, rfl, by omega, ?_, ?_, (by simp),
                  (by simp), ?_, (by simp)⟩
          · simp [sumMoney_append_single, h5]
          · refine goodLog_append 0 log _ h6 ?_
            simp [h5]
          · intro _
            refine ⟨by omega, by simpa using hll, hso, hfo, hsc, hfc⟩
        · rename_i hd10f
          have hd10 : ¬d = 10 := fun h => hd10f (decide_eq_true h)
          injection hstep with hstep
          subst hstep
          dsimp only [SessionInv]
          refine ⟨h1, h2, rfl, h4, h5, h6, (by simp), ?_,
                  (by simp),
                  (by simp)⟩
          intro _
          exact ⟨hpn, hnl1, hll, pump_bound f rk bs X d hbs hX hv hd10,
                 rfl, hso, hfo, hsc, hfc⟩
      | popped =>
        simp only [step] at hstep
        injection hstep with hstep
        subst hstep
        exact ⟨h1, h2, h3, h4, h5, h6, hstart, hplay, hend, hexit⟩
      | cashed =>
        simp only [step] at hstep
        injection hstep with hstep
        subst hstep
        exact ⟨h1, h2, h3, h4, h5, h6, hstart, hplay, hend, hexit⟩
      | exitS =>
        simp only [step] at hstep
        injection hstep with hstep
        subst hstep
        exact ⟨h1, h2, h3, h4, h5, h6, hstart, hplay, hend, hexit⟩
    | left =>
      cases name with
      | start =>
        simp only [step] at hstep
        injection hstep with hstep
        subst hstep
        exact ⟨h1, h2, h3, h4, h5, h6, hstart, hplay, hend, hexit⟩
      | play =>
        obtain ⟨hpn, hnl1, hll, hbs, hpp, hso, hfo, hsc, hfc⟩ := hplay rfl
        subst hpp
        simp only [step] at hstep
        injection hstep with hstep
        subst hstep
        dsimp only [SessionInv, playExitTo, exitRow]
        refine ⟨h1, h2, h3, by omega, ?_, ?_, (by simp),
                (by simp), ?_, (by simp)⟩
        · simp [sumMoney_append_single, h5]
        · refine goodLog_append 0 log _ h6 ?_
          simp [h5]
        · intro _
          refine ⟨by omega, by simpa using hll, hso, hfo, hsc, hfc⟩
      | popped =>
        simp only [step] at hstep
        injection hstep with hstep
        subst hstep
        exact ⟨h1, h2, h3, h4, h5, h6, hstart, hplay, hend, hexit⟩
      | cashed =>
        simp only [step] at hstep
        injection hstep with hstep
        subst hstep
        exact ⟨h1, h2, h3, h4, h5, h6, hstart, hplay, hend, hexit⟩
      | exitS =>
        simp only [step] at hstep
        injection hstep with hstep
        subst hstep
        exact ⟨h1, h2, h3, h4, h5, h6, hstart, hplay, hend, hexit⟩
    | keyQ =>
      cases name with
      | start =>
        simp only [step] at hstep
        injection hstep with hstep
        subst hstep
        exact ⟨h1, h2, h3, h4, h5, h6, hstart, hplay, hend, hexit⟩
      | play =>
        simp only [step] at hstep
        injection hstep with hstep
        subst hstep
        exact ⟨h1, h2, h3, h4, h5, h6, hstart, hplay, hend, hexit⟩
      | popped =>
        simp only [step] at hstep
        injection hstep with hstep
        subst hstep
        exact ⟨h1, h2, h3, h4, h5, h6, hstart, hplay, hend, hexit⟩
      | cashed =>
        simp only [step] at hstep
        injection hstep with hstep
        subst hstep
        exact ⟨h1, h2, h3, h4, h5, h6, hstart, hplay, hend, hexit⟩
      | exitS =>
        simp only [step] at hstep
        injection hstep with hstep
        subst hstep
        exact ⟨h1, h2, h3, h4, h5, h6, hstart, hplay, hend, hexit⟩

theorem inv_init (N : Nat) (sched : List Risk) (f : ProbFile) :
    SessionInv N sched f (initSession N sched (extractProb f)) := by
  refine ⟨rfl, rfl, rfl, le_refl N, rfl, trivial, ?_, (by simp [initSession]),
          (by simp [initSession]), (by simp [initSession])⟩
  intro _
  exact ⟨rfl, rfl, rfl, rfl, rfl, rfl, rfl⟩

theorem inv_reachable (N : Nat) (sched : List Risk) (f : ProbFile)
    (hN : 1 ≤ N) (s : Session)
    (hr : Reachable (initSession N sched (extractProb f)) s) :
    SessionInv N sched f s := by
  induction hr with
  | refl => exact inv_init N sched f
  | tail hr hv hstep ih => exact inv_step N sched f hN _ _ _ ih hv hstep

/-! ### Step characterizations at the Play state (claims C5, C6) -/

theorem step_play_pump_pop (s : Session) (X : Int)
    (hs : s.name = .play) (hdone : s.done = false)
    (hlook : (s.probs s.risk).get? s.balloon_size = some X) :
    step s (.right 10) = some (playExitTo { s with popped := true } .popped) := by
  rw [List.get?_eq_getElem?] at hlook
  simp [step, hs, hdone, shouldPop, hlook]

theorem step_play_pump_nopop (s : Session) (X d : Int)
    (hs : s.name = .play) (hdone : s.done = false)
    (hlook : (s.probs s.risk).get? s.balloon_size = some X) (hd : d ≠ 10) :
    step s (.right d) =
      some { s with popped := false, round_total := s.round_total + 1,
                    balloon_size := s.balloon_size + 1 } := by
  rw [List.get?_eq_getElem?] at hlook
  simp [step, hs, hdone, shouldPop, hlook, hd]

theorem step_play_cash (s : Session)
    (hs : s.name = .play) (hdone : s.done = false) :
    step s .left =
      some (playExitTo
        { s with overall_total := s.overall_total + s.round_total,
                 cashed := true } .cashed) := by
  simp [step, hs, hdone]

/-- C5: in a Play state, a pump whose pop decision is false (draw other
than 10) increments the pump count and the round winnings by exactly 1 and
leaves the cumulative winnings unchanged; a cash-in adds the round winnings
to the cumulative winnings exactly once; a pump whose pop decision is true
(draw 10) leaves pump count, round winnings and cumulative winnings
unchanged and the logged round payout of the written row is 0. -/
theorem claim_C5 (s s1 s2 s3 : Session) (d X : Int)
    (hs : s.name = .play) (hdone : s.done = false)
    (hlook : (s.probs s.risk).get? s.balloon_size = some X)
    (hd : d ≠ 10)
    (h1 : step s (.right d) = some s1)
    (h2 : step s (.right 10) = some s2)
    (h3 : step s .left = some s3) :
    (s1.balloon_size = s.balloon_size + 1 ∧ s1.round_total = s.round_total + 1 ∧
     s1.overall_total = s.overall_total ∧ s1.name = .play) ∧
    (s2.balloon_size = s.balloon_size ∧ s2.round_total = s.round_total ∧
     s2.overall_total = s.overall_total ∧ s2.name = .popped ∧
     s2.log = s.log ++ [exitRow { s with popped := true }] ∧
     (exitRow { s with popped := true }).round_money_won = 0) ∧
    (s3.overall_total = s.overall_total + s.round_total ∧ s3.name = .cashed) := by
  rw [step_play_pump_nopop s X d hs hdone hlook hd] at h1
  rw [step_play_pump_pop s X hs hdone hlook] at h2
  rw [step_play_cash s hs hdone] at h3
  injection h1 with h1
  injection h2 with h2
  injection h3 with h3
  subst h1
  subst h2
  subst h3
  refine ⟨⟨rfl, rfl, rfl, hs⟩, ⟨rfl, rfl, rfl, rfl, rfl, ?_⟩, rfl, rfl⟩
  simp [exitRow]

/-- Witness for C5 at the concrete Play state `sessPlay` with draw 5. -/
theorem claim_C5_witness :
    (sessPumped.balloon_size = sessPlay.balloon_size + 1 ∧
     sessPumped.round_total = sessPlay.round_total + 1 ∧
     sessPumped.overall_total = sessPlay.overall_total ∧
     sessPumped.name = .play) ∧
    (sessPopped.balloon_size = sessPlay.balloon_size ∧
     sessPopped.round_total = sessPlay.round_total ∧
     sessPopped.overall_total = sessPlay.overall_total ∧
     sessPopped.name = .popped ∧
     sessPopped.log = sessPlay.log ++ [exitRow { sessPlay with popped := true }] ∧
     (exitRow { sessPlay with popped := true }).round_money_won = 0) ∧
    (sessCashed.overall_total = sessPlay.overall_total + sessPlay.round_total ∧
     sessCashed.name = .cashed) :=
  claim_C5 sessPlay sessPumped sessPopped sessCashed 5 1
    rfl rfl rfl (by decide) rfl rfl rfl

/-- C6: exactly one record is written per completed round, at the exit of
the Play state: both terminal transitions append exactly one row to the log;
the CSV header fixes the field order and names
`num_keypresses, round_money_won, total_money_won, popped, risk`; the written
row equals the round's final in-memory state, with `round_money_won` equal to
0 when the balloon popped and to the round winnings otherwise, and
`total_money_won` equal to the cumulative winnings; and a finished session
has exactly one logged row per round. -/
theorem claim_C6 (N : Nat) (sched : List Risk) (f : ProbFile)
    (hN : 1 ≤ N) (hlen : sched.length = N)
    (s s2 s3 sr t : Session) (X : Int)
    (hs : s.name = .play) (hdone : s.done = false)
    (hlook : (s.probs s.risk).get? s.balloon_size = some X)
    (h2 : step s (.right 10) = some s2)
    (h3 : step s .left = some s3)
    (hr : Reachable (initSession N sched (extractProb f)) sr) :
    setupCSVFieldnames true =
      ["num_keypresses", "round_money_won", "total_money_won", "popped", "risk"] ∧
    s2.log = s.log ++ [exitRow { s with popped := true }] ∧
    s3.log = s.log ++ [exitRow { s with overall_total := s.overall_total + s.round_total,
                                        cashed := true }] ∧
    (t.popped = true → (exitRow t).round_money_won = 0) ∧
    (t.popped = false → (exitRow t).round_money_won = t.round_total) ∧
    (exitRow t).total_money_won = t.overall_total ∧
    (exitRow t).num_keypresses = t.balloon_size ∧
    (exitRow t).popped = t.popped ∧
    (exitRow t).risk = t.risk ∧
    (sr.name = .exitS → sr.log.length = sr.num_rounds) := by
  rw [step_play_pump_pop s X hs hdone hlook] at h2
  rw [step_play_cash s hs hdone] at h3
  injection h2 with h2
  injection h3 with h3
  subst h2
  subst h3
  have hinv := inv_reachable N sched f hN sr hr
  obtain ⟨c1, _, _, _, _, _, _, _, _, cexit⟩ := hinv
  refine ⟨rfl, rfl, rfl, ?_, ?_, rfl, rfl, rfl, rfl, ?_⟩
  · intro h
    simp [exitRow, h]
  · intro h
    simp [exitRow, h]
  · intro h
    obtain ⟨_, _, hlogN, _⟩ := cexit h
    rw [hlogN, c1]

/-- Witness for C6 on the concrete one-round session. -/
theorem claim_C6_witness :
    setupCSVFieldnames true =
      ["num_keypresses", "round_money_won", "total_money_won", "popped", "risk"] ∧
    sessPopped.log = sessPlay.log ++ [exitRow { sessPlay with popped := true }] ∧
    sessCashed.log = sessPlay.log ++
      [exitRow { sessPlay with overall_total := sessPlay.overall_total + sessPlay.round_total,
                               cashed := true }] ∧
    (sessPopped.popped = true → (exitRow sessPopped).round_money_won = 0) ∧
    (sessPopped.popped = false →
      (exitRow sessPopped).round_money_won = sessPopped.round_total) ∧
    (exitRow sessPopped).total_money_won = sessPopped.overall_total ∧
    (exitRow sessPopped).num_keypresses = sessPopped.balloon_size ∧
    (exitRow sessPopped).popped = sessPopped.popped ∧
    (exitRow sessPopped).risk = sessPopped.risk ∧
    (sessExit.name = .exitS → sessExit.log.length = sessExit.num_rounds) :=
  claim_C6 1 [Risk.high] f0 (by decide) (by decide)
    sessPlay sessPopped sessCashed sessExit sessPopped 1
    rfl rfl rfl rfl rfl reach_sessExit

/-- C7: in every reachable session, the remaining-round counter carried in
the Play exit payload is exactly one less than the value consumed at Play
entry (the counter is constant while playing, so its value at the Play →
Popped/Cashed transition is the entry value); on confirming at Popped or
Cashed the next state is Exit iff the remaining-round counter is 0 and
otherwise is Play; and a session that reached the Exit state entered Play
exactly `N` times. -/
theorem claim_C7 (N : Nat) (sched : List Risk) (f : ProbFile)
    (hN : 1 ≤ N) (hlen : sched.length = N) (s s' : Session) (e : Ev)
    (hr : Reachable (initSession N sched (extractProb f)) s)
    (hv : validEv s e = true) (hstep : step s e = some s') :
    ((s.name = .play ∧ (s'.name = .popped ∨ s'.name = .cashed)) →
      s'.num_rounds_left + 1 = s.num_rounds_left) ∧
    (((s.name = .popped ∨ s.name = .cashed) ∧ e = .ret) →
      ((s'.name = .exitS ↔ s.num_rounds_left = 0) ∧
       (s.num_rounds_left ≠ 0 → s'.name = .play))) ∧
    (s.name = .exitS → s.playEntries = N) := by
  have hinv := inv_reachable N sched f hN s hr
  obtain ⟨c1, c2, c3, c4, c5, c6, cstart, cplay, cend, cexit⟩ := hinv
  refine ⟨?_, ?_, fun hx => (cexit hx).1⟩
  · rintro ⟨hsplay, hs'⟩
    obtain ⟨hpn, hnl1, _⟩ := cplay hsplay
    obtain ⟨name, nr, nleft, total, risks, probs, rt, bs, pp, cs, rk, log, pe,
            so, fo, sc, fc, tg, dn⟩ := s
    dsimp only at *
    subst hsplay
    cases dn with
    | true => simp [step] at hstep
    | false =>
      cases e with
      | winQuit =>
        simp only [step] at hstep
        injection hstep with hstep
        subst hstep
        simp at hs'
      | ret =>
        simp only [step] at hstep
        injection hstep with hstep
        subst hstep
        simp at hs'
      | keyQ =>
        simp only [step] at hstep
        injection hstep with hstep
        subst hstep
        simp at hs'
      | right d =>
        simp only [step] at hstep
        rw [if_neg Bool.false_ne_true] at hstep
        split at hstep
        · exact nomatch hstep
        · rename_i pop hsp
          split at hstep
          · injection hstep with hstep
            subst hstep
            dsimp only [playExitTo]
            omega
          · injection hstep with hstep
            subst hstep
            simp at hs'
      | left =>
        simp only [step] at hstep
        injection hstep with hstep
        subst hstep
        dsimp only [playExitTo]
        omega
  · rintro ⟨hsend, rfl⟩
    obtain ⟨hpn2, _⟩ := cend hsend
    obtain ⟨name, nr, nleft, total, risks, probs, rt, bs, pp, cs, rk, log, pe,
            so, fo, sc, fc, tg, dn⟩ := s
    dsimp only at *
    cases dn with
    | true => simp [step] at hstep
    | false =>
      rcases hsend with h | h
      · subst h
        simp only [step] at hstep
        rw [if_neg Bool.false_ne_true] at hstep
        by_cases h0 : nleft = 0
        · rw [if_pos h0] at hstep
          injection hstep with hstep
          subst hstep
          exact ⟨iff_of_true rfl h0, fun hne => absurd h0 hne⟩
        · rw [if_neg h0] at hstep
          unfold playEnter at hstep
          dsimp only at hstep
          rcases hget : risks.get? (risks.length - nleft) with _ | r
          · rw [hget] at hstep
            simp at hstep
          · rw [hget] at hstep
            injection hstep with hstep
            subst hstep
            exact ⟨iff_of_false (by simp) h0, fun _ => rfl⟩
      · subst h
        simp only [step] at hstep
        rw [if_neg Bool.false_ne_true] at hstep
        by_cases h0 : nleft = 0
        · rw [if_pos h0] at hstep
          injection hstep with hstep
          subst hstep
          exact ⟨iff_of_true rfl h0, fun hne => absurd h0 hne⟩
        · rw [if_neg h0] at hstep
          unfold playEnter at hstep
          dsimp only at hstep
          rcases hget : risks.get? (risks.length - nleft) with _ | r
          · rw [hget] at hstep
            simp at hstep
          · rw [hget] at hstep
            injection hstep with hstep
            subst hstep
            exact ⟨iff_of_false (by simp) h0, fun _ => rfl⟩

/-- Witness for C7 on the concrete one-round session at the Exit state. -/
theorem claim_C7_witness :
    ((sessExit.name = .play ∧
      (({ sessExit with done := true } : Session).name = .popped ∨
       ({ sessExit with done := true } : Session).name = .cashed)) →
      ({ sessExit with done := true } : Session).num_rounds_left + 1 =
        sessExit.num_rounds_left) ∧
    (((sessExit.name = .popped ∨ sessExit.name = .cashed) ∧ Ev.ret = Ev.ret) →
      ((({ sessExit with done := true } : Session).name = .exitS ↔
          sessExit.num_rounds_left = 0) ∧
       (sessExit.num_rounds_left ≠ 0 →
          ({ sessExit with done := true } : Session).name = .play))) ∧
    (sessExit.name = .exitS → sessExit.playEntries = 1) :=
  claim_C7 1 [Risk.high] f0 (by decide) (by decide)
    sessExit { sessExit with done := true } .ret
    reach_sessExit (by decide) rfl

/-- C8 counterexample: a reachable session terminated by a window-close
event while in Play (`Control.done` set, no further steps possible) still has
the socket and the CSV file open and never closed: the resources are not
released on this termination path, contradicting "closed exactly once on
every termination path". -/
theorem claim_C8_counterexample :
    Reachable sess0 sQuitPlay ∧ sQuitPlay.done = true ∧
    step sQuitPlay Ev.ret = none ∧
    sQuitPlay.socketOpen = true ∧ sQuitPlay.fileOpen = true ∧
    sQuitPlay.socketCloses = 0 ∧ sQuitPlay.fileCloses = 0 :=
  ⟨reach_sQuitPlay, rfl, rfl, rfl, rfl, rfl, rfl⟩

/-- C8 (amended): the log file and the trigger-signal socket, opened once
at Setup, are closed exactly once when (and only when) the Exit state is
entered: in every reachable session, the Exit state has both close-counters
at exactly 1 and both handles closed, any other state has both counters at 0,
and the Play state has both handles open; abnormal early termination (window
close or quit before Exit) terminates without closing them. -/
theorem claim_C8 (N : Nat) (sched : List Risk) (f : ProbFile)
    (hN : 1 ≤ N) (hlen : sched.length = N) (s : Session)
    (hr : Reachable (initSession N sched (extractProb f)) s) :
    (s.name = .exitS → s.socketCloses = 1 ∧ s.fileCloses = 1 ∧
      s.socketOpen = false ∧ s.fileOpen = false) ∧
    (s.name ≠ .exitS → s.socketCloses = 0 ∧ s.fileCloses = 0) ∧
    (s.name = .play → s.socketOpen = true ∧ s.fileOpen = true) := by
  have hinv := inv_reachable N sched f hN s hr
  obtain ⟨_, _, _, _, _, _, cstart, cplay, cend, cexit⟩ := hinv
  refine ⟨?_, ?_, ?_⟩
  · intro h
    obtain ⟨_, _, _, hso, hfo, hsc, hfc⟩ := cexit h
    exact ⟨hsc, hfc, hso, hfo⟩
  · intro h
    cases hname : s.name with
    | start =>
      obtain ⟨_, _, _, _, _, hsc, hfc⟩ := cstart hname
      exact ⟨hsc, hfc⟩
    | play =>
      obtain ⟨_, _, _, _, _, _, _, hsc, hfc⟩ := cplay hname
      exact ⟨hsc, hfc⟩
    | popped =>
      obtain ⟨_, _, _, _, hsc, hfc⟩ := cend (Or.inl hname)
      exact ⟨hsc, hfc⟩
    | cashed =>
      obtain ⟨_, _, _, _, hsc, hfc⟩ := cend (Or.inr hname)
      exact ⟨hsc, hfc⟩
    | exitS => exact absurd hname h
  · intro h
    obtain ⟨_, _, _, _, _, hso, hfo, _, _⟩ := cplay h
    exact ⟨hso, hfo⟩

/-- Witness for the amended C8 at the concrete session in the Exit state. -/
theorem claim_C8_witness :
    (sessExit.name = .exitS → sessExit.socketCloses = 1 ∧ sessExit.fileCloses = 1 ∧
      sessExit.socketOpen = false ∧ sessExit.fileOpen = false) ∧
    (sessExit.name ≠ .exitS → sessExit.socketCloses = 0 ∧ sessExit.fileCloses = 0) ∧
    (sessExit.name = .play → sessExit.socketOpen = true ∧ sessExit.fileOpen = true) :=
  claim_C8 1 [Risk.high] f0 (by decide) (by decide) sessExit reach_sessExit

/-- C9: in every reachable Play state of a session whose probability
table was produced by the loader, the table lookup
`probs[risk][balloon_size]` performed by the pump handler is in bounds:
`balloon_size` never exceeds `length (probs risk) - 1`, and the lookup
succeeds. -/
theorem claim_C9 (N : Nat) (sched : List Risk) (f : ProbFile)
    (hN : 1 ≤ N) (hlen : sched.length = N) (s : Session)
    (hr : Reachable (initSession N sched (extractProb f)) s)
    (hs : s.name = .play) :
    s.balloon_size + 1 ≤ (s.probs s.risk).length ∧
    ((s.probs s.risk).get? s.balloon_size).isSome = true := by
  have hinv := inv_reachable N sched f hN s hr
  obtain ⟨_, _, c3, _, _, _, _, cplay, _, _⟩ := hinv
  obtain ⟨_, _, _, hbs, _⟩ := cplay hs
  rw [c3]
  refine ⟨hbs, ?_⟩
  rw [List.get?_eq_get (show s.balloon_size < (extractProb f s.risk).length by omega)]
  rfl

/-- Witness for C9 at the concrete reachable Play state. -/
theorem claim_C9_witness :
    sessPlay.balloon_size + 1 ≤ (sessPlay.probs sessPlay.risk).length ∧
    ((sessPlay.probs sessPlay.risk).get? sessPlay.balloon_size).isSome = true :=
  claim_C9 1 [Risk.high] f0 (by decide) (by decide) sessPlay reach_sessPlay rfl

theorem goodLog_get (a : Nat) (l : List CsvRow) (i : Nat) (row : CsvRow)
    (h : goodLog a l) (hrow : l.get? i = some row) :
    row.total_money_won = a + sumMoney (l.take (i + 1)) := by
  induction l generalizing a i with
  | nil => simp at hrow
  | cons r rest ih =>
    obtain ⟨hr1, hr2⟩ := h
    cases i with
    | zero =>
      simp only [List.get?] at hrow
      injection hrow with hrow
      subst hrow
      simp [sumMoney_cons, sumMoney, hr1]
    | succ i =>
      simp only [List.get?] at hrow
      have hrec := ih (a + r.round_money_won) i hr2 hrow
      rw [hrec]
      simp [List.take, sumMoney_cons]
      omega

/-- Along any deliverable step, the cumulative total never decreases. -/
theorem overall_mono (N : Nat) (sched : List Risk) (f : ProbFile)
    (s s' : Session) (e : Ev) (hinv : SessionInv N sched f s)
    (hstep : step s e = some s') :
    s.overall_total ≤ s'.overall_total := by
  obtain ⟨name, nr, nleft, total, risks, probs, rt, bs, pp, cs, rk, log, pe,
          so, fo, sc, fc, tg, dn⟩ := s
  obtain ⟨h1, h2, h3, h4, h5, h6, hstart, hplay, hend, hexit⟩ := hinv
  dsimp only at *
  cases dn with
  | true => simp [step] at hstep
  | false =>
    cases e with
    | winQuit =>
      simp only [step] at hstep
      injection hstep with hstep
      subst hstep
      exact le_refl total
    | ret =>
      cases name with
      | start =>
        obtain ⟨_, _, hlog, _⟩ := hstart rfl
        have htot : total = 0 := by
          rw [hlog] at h5
          simpa [sumMoney] using h5
        simp only [step] at hstep
        unfold playEnter at hstep
        dsimp only at hstep
        rcases hget : risks.get? (risks.length - nleft) with _ | r
        · rw [hget] at hstep
          simp at hstep
        · rw [hget] at hstep
          injection hstep with hstep
          subst hstep
          dsimp only
          omega
      | play =>
        simp only [step] at hstep
        injection hstep with hstep
        subst hstep
        exact le_refl total
      | popped =>
        simp only [step] at hstep
        rw [if_neg Bool.false_ne_true] at hstep
        by_cases h0 : nleft = 0
        · rw [if_pos h0] at hstep
          injection hstep with hstep
          subst hstep
          exact le_refl total
        · rw [if_neg h0] at hstep
          unfold playEnter at hstep
          dsimp only at hstep
          rcases hget : risks.get? (risks.length - nleft) with _ | r
          · rw [hget] at hstep
            simp at hstep
          · rw [hget] at hstep
            injection hstep with hstep
            subst hstep
            exact le_refl total
      | cashed =>
        simp only [step] at hstep
        rw [if_neg Bool.false_ne_true] at hstep
        by_cases h0 : nleft = 0
        · rw [if_pos h0] at hstep
          injection hstep with hstep
          subst hstep
          exact le_refl total
        · rw [if_neg h0] at hstep
          unfold playEnter at hstep
          dsimp only at hstep
          rcases hget : risks.get? (risks.length - nleft) with _ | r
          · rw [hget] at hstep
            simp at hstep
          · rw [hget] at hstep
            injection hstep with hstep
            subst hstep
            exact le_refl total
      | exitS =>
        simp only [step] at hstep
        injection hstep with hstep
        subst hstep
        exact le_refl total
    | right d =>
      cases name with
      | start =>
        simp only [step] at hstep
        injection hstep with hstep
        subst hstep
        exact le_refl total
      | play =>
        simp only [step] at hstep
        rw [if_neg Bool.false_ne_true] at hstep
        split at hstep
        · exact nomatch hstep
        · rename_i pop hsp
          split at hstep
          · injection hstep with hstep
            subst hstep
            exact le_refl total
          · injection hstep with hstep
            subst hstep
            exact le_refl total
      | popped =>
        simp only [step] at hstep
        injection hstep with hstep
        subst hstep
        exact le_refl total
      | cashed =>
        simp only [step] at hstep
        injection hstep with hstep
        subst hstep
        exact le_refl total
      | exitS =>
        simp only [step] at hstep
        injection hstep with hstep
        subst hstep
        exact le_refl total
    | left =>
      cases name with
      | start =>
        simp only [step] at hstep
        injection hstep with hstep
        subst hstep
        exact le_refl total
      | play =>
        simp only [step] at hstep
        injection hstep with hstep
        subst hstep
        exact Nat.le_add_right total rt
      | popped =>
        simp only [step] at hstep
        injection hstep with hstep
        subst hstep
        exact le_refl total
      | cashed =>
        simp only [step] at hstep
        injection hstep with hstep
        subst hstep
        exact le_refl total
      | exitS =>
        simp only [step] at hstep
        injection hstep with hstep
        subst hstep
        exact le_refl total
    | keyQ =>
      cases name with
      | start =>
        simp only [step] at hstep
        injection hstep with hstep
        subst hstep
        exact le_refl total
      | play =>
        simp only [step] at hstep
        injection hstep with hstep
        subst hstep
        exact le_refl total
      | popped =>
        simp only [step] at hstep
        injection hstep with hstep
        subst hstep
        exact le_refl total
      | cashed =>
        simp only [step] at hstep
        injection hstep with hstep
        subst hstep
        exact le_refl total
      | exitS =>
        simp only [step] at hstep
        injection hstep with hstep
        subst hstep
        exact le_refl total

/-- C10: in every reachable session, every logged row's `total_money_won`
equals the sum of the `round_money_won` fields of the rows up to and
including it (so the last row of every prefix carries the prefix's payout
sum), and the cumulative total carried by the controller never decreases
across any further step. -/
theorem claim_C10 (N : Nat) (sched : List Risk) (f : ProbFile)
    (hN : 1 ≤ N) (hlen : sched.length = N) (s s' : Session)
    (hr : Reachable (initSession N sched (extractProb f)) s)
    (i : Nat) (row : CsvRow) (hrow : s.log.get? i = some row)
    (e : Ev) (hstep : step s e = some s') :
    row.total_money_won = sumMoney (s.log.take (i + 1)) ∧
    s.overall_total ≤ s'.overall_total := by
  have hinv := inv_reachable N sched f hN s hr
  refine ⟨?_, overall_mono N sched f s s' e hinv hstep⟩
  obtain ⟨_, _, _, _, _, c6, _⟩ := hinv
  simpa using goodLog_get 0 s.log i row c6 hrow

/-- Witness for C10 at the concrete session in the Popped state (one logged
row) stepping to Exit. -/
theorem claim_C10_witness :
    row0.total_money_won = sumMoney (sessPopped.log.take (0 + 1)) ∧
    sessPopped.overall_total ≤ sessExit.overall_total :=
  claim_C10 1 [Risk.high] f0 (by decide) (by decide) sessPopped sessExit
    reach_sessPopped 0 row0 rfl .ret rfl

/-- Witness for the amended C4 on the loaded table with empty tier lines
(tier sequence `[1]`, saturation index 0, out-of-range index 1). -/
theorem claim_C4_witness :
    (extractProb f0 .high).getLast? = some 1 ∧
    (extractProb f0 .high).get? 0 = some 1 ∧
    shouldPop (extractProb f0) .high 0 10 = some true ∧
    shouldPop (extractProb f0) .high 1 7 = none :=
  claim_C4 f0 .high 0 1 10 7 (by decide) (by decide) (by decide)
